import Mathlib

/-!
Verification of the XSBH fragment-viewer scene-management layer
(`src/frontend/src/main.ts`, class `FragmentViewer`).

The embedding models the camera framing controller (`fitCameraToModels`,
`fitAllModelsToView`'s far-plane enforcement), the model readiness monitor
(`waitForModelReady`), the visibility registry (`toggleCategoryVisibility`
and its fallback chain `toggleCategoryVisibilityFallback`), and the picking
handler (`setupPicking`).  JavaScript numbers are modelled by ℚ (all the
constants involved are exact decimal fractions), element-id sets by lists
of ℕ, and the `localStorage`-backed `hiddenCategories` JSON object by an
association list `List (String × Bool)`.
-/

namespace XSBH

/-- `THREE.Vector3` (the components the viewer uses). -/
structure Vec3 where
  x : ℚ
  y : ℚ
  z : ℚ
deriving DecidableEq

/-- `THREE.Box3`: an axis-aligned box given by its min/max corners. -/
structure Box3 where
  min : Vec3
  max : Vec3
deriving DecidableEq

/-- `THREE.Box3.isEmpty`: the box is empty when `max < min` in some axis. -/
def Box3.isEmpty (b : Box3) : Bool :=
  decide (b.max.x < b.min.x) || decide (b.max.y < b.min.y) || decide (b.max.z < b.min.z)

/-- `THREE.Box3.getCenter`: `(min + max) * 0.5`, or the zero vector for an empty box. -/
def Box3.getCenter (b : Box3) : Vec3 :=
  if b.isEmpty then ⟨0, 0, 0⟩
  else ⟨(b.min.x + b.max.x) / 2, (b.min.y + b.max.y) / 2, (b.min.z + b.max.z) / 2⟩

/-- `THREE.Box3.getSize`: `max - min`, or the zero vector for an empty box. -/
def Box3.getSize (b : Box3) : Vec3 :=
  if b.isEmpty then ⟨0, 0, 0⟩
  else ⟨b.max.x - b.min.x, b.max.y - b.min.y, b.max.z - b.min.z⟩

/-- The user-adjustable camera settings record (`FragmentViewer.cameraSettings`,
main.ts lines 463-481). -/
structure CameraSettings where
  nearPlane : ℚ
  farPlane : ℚ
  closeFitMultiplier : ℚ
  farFitMultiplier : ℚ
  closeHeightOffset : ℚ
  farHeightOffset : ℚ
  minimumDistance : ℚ
  mediumModelThreshold : ℚ
  largeModelThreshold : ℚ
  veryLargeModelThreshold : ℚ
deriving DecidableEq

/-- The default values of `cameraSettings` in the source
(`0.1, 50000, 5.0, 8.0, 2.0, 3.0, 200, 100, 500, 1000`). -/
def defaultCameraSettings : CameraSettings where
  nearPlane := 1 / 10
  farPlane := 50000
  closeFitMultiplier := 5
  farFitMultiplier := 8
  closeHeightOffset := 2
  farHeightOffset := 3
  minimumDistance := 200
  mediumModelThreshold := 100
  largeModelThreshold := 500
  veryLargeModelThreshold := 1000

/-- `distanceMultiplier` selected in `fitCameraToModels` from the `wide` flag. -/
def distanceMultiplier (s : CameraSettings) (wide : Bool) : ℚ :=
  if wide then s.farFitMultiplier else s.closeFitMultiplier

/-- `cameraOffset` (height offset) selected in `fitCameraToModels` from the `wide` flag. -/
def cameraOffset (s : CameraSettings) (wide : Bool) : ℚ :=
  if wide then s.farHeightOffset else s.closeHeightOffset

/-- `baseDistance = Math.max(maxDim * distanceMultiplier, minimumDistance)`
(main.ts line 522). -/
def baseDistance (s : CameraSettings) (wide : Bool) (maxDim : ℚ) : ℚ :=
  max (maxDim * distanceMultiplier s wide) s.minimumDistance

/-- The progressive `modelScale` of `fitCameraToModels` (main.ts lines 525-528):
`let modelScale = 1.0;` followed by three sequential `if` reassignments. -/
def modelScale (s : CameraSettings) (maxDim : ℚ) : ℚ :=
  let m1 : ℚ := 1
  let m2 : ℚ := if maxDim > s.mediumModelThreshold then 2 else m1
  let m3 : ℚ := if maxDim > s.largeModelThreshold then 3 else m2
  if maxDim > s.veryLargeModelThreshold then 4 else m3

/-- `finalDistance = baseDistance * modelScale` (main.ts line 530). -/
def finalDistance (s : CameraSettings) (wide : Bool) (maxDim : ℚ) : ℚ :=
  baseDistance s wide maxDim * modelScale s maxDim

/-- The observable outcome of one `fitCameraToModels` call: where the camera was
put and aimed, the far plane after the call (the function body never writes
`camera.far`, so the value is passed through unchanged), and the computed
`finalDistance` and `maxDim`. -/
structure FitState where
  position : Vec3
  target : Vec3
  far : ℚ
  finalDistance : ℚ
  maxDim : ℚ
deriving DecidableEq

/-- `FragmentViewer.fitCameraToModels` (main.ts lines 484-560), applied to the
combined bounding box of the loaded models.  Returns `none` when no model
yielded a valid (non-empty) box, mirroring the `if (!hasBox) return;` guard.
`far` is the perspective camera's current far-plane distance; the source
function does not modify it. -/
def fitCameraToModels (s : CameraSettings) (wide : Bool) (combinedBox : Box3)
    (far : ℚ) : Option FitState :=
  if combinedBox.isEmpty then none
  else
    let center := combinedBox.getCenter
    let size := combinedBox.getSize
    let maxDim := max (max size.x size.y) size.z
    let fd := finalDistance s wide maxDim
    some
      { position :=
          ⟨center.x + fd * (9 / 10),          -- center.x + finalDistance * 0.9
           center.y + fd * cameraOffset s wide,
           center.z + fd * (8 / 10)⟩,         -- center.z + finalDistance * 0.8
        target := center,
        far := far,
        finalDistance := fd,
        maxDim := maxDim }

/-- The far-plane enforcement step of `fitAllModelsToView` (main.ts lines 655-663):
`requiredFarPlane = distance + maxDim`; if `camera.far < requiredFarPlane` then
`camera.far = Math.max(requiredFarPlane * 1.2, cameraSettings.farPlane)` and
`updateProjectionMatrix()` is called.  Returns the new far plane and whether the
projection matrix was updated. -/
def ensureFarPlane (s : CameraSettings) (far distance maxDim : ℚ) : ℚ × Bool :=
  let requiredFarPlane := distance + maxDim
  if far < requiredFarPlane then
    (max (requiredFarPlane * (6 / 5)) s.farPlane, true)   -- requiredFarPlane * 1.2
  else
    (far, false)

lemma one_le_modelScale (s : CameraSettings) (x : ℚ) : 1 ≤ modelScale s x := by
  unfold modelScale
  split_ifs <;> norm_num

lemma modelScale_nonneg (s : CameraSettings) (x : ℚ) : 0 ≤ modelScale s x :=
  le_trans (by norm_num) (one_le_modelScale s x)

lemma minimumDistance_le_finalDistance (s : CameraSettings) (wide : Bool) (x : ℚ)
    (hmin : 0 ≤ s.minimumDistance) : s.minimumDistance ≤ finalDistance s wide x := by
  have hbase : s.minimumDistance ≤ baseDistance s wide x := le_max_right _ _
  have hbase0 : 0 ≤ baseDistance s wide x := le_trans hmin hbase
  calc s.minimumDistance ≤ baseDistance s wide x := hbase
    _ ≤ baseDistance s wide x * modelScale s x :=
        le_mul_of_one_le_right hbase0 (one_le_modelScale s x)

lemma modelScale_mono (s : CameraSettings) {a b : ℚ} (hab : a ≤ b) :
    modelScale s a ≤ modelScale s b := by
  unfold modelScale
  split_ifs <;> norm_num <;> linarith

/-- Claim C1, counterexample: the close fit (`fitCameraToModels` with
`wide = false`) does not touch the camera's far plane.  For a cube of side
20000 with default settings the computed distance is 400000, yet the far
plane stays at its default 50000, which is smaller than
`distance + maxDim = 420000`.  So the far-plane invariant does not hold
after every fit operation. -/
theorem closeFit_far_plane_not_raised :
    fitCameraToModels defaultCameraSettings false ⟨⟨0, 0, 0⟩, ⟨20000, 20000, 20000⟩⟩ 50000 =
      some ⟨⟨370000, 810000, 330000⟩, ⟨10000, 10000, 10000⟩, 50000, 400000, 20000⟩ ∧
    (50000 : ℚ) < 400000 + 20000 := by
  constructor
  · simp only [fitCameraToModels, Box3.isEmpty, Box3.getCenter, Box3.getSize, finalDistance,
      baseDistance, modelScale, distanceMultiplier, cameraOffset, defaultCameraSettings]
    norm_num [max_def]
  · norm_num

/-- Claim C1 (amended): only the fit-all-models operation
(`fitAllModelsToView`) enforces the far-plane invariant: after its
enforcement step the far plane is ≥ `distance + maxDim`, the projection
matrix is updated exactly when the old far plane was too small, and an
adequate far plane is left unchanged.  The close/far fit
(`fitCameraToModels`) never modifies the far plane. -/
theorem farPlane_invariant_fitAllModels :
    (∀ (s : CameraSettings) (far distance maxDim : ℚ), 0 ≤ distance → 0 ≤ maxDim →
      distance + maxDim ≤ (ensureFarPlane s far distance maxDim).1 ∧
      (far < distance + maxDim → (ensureFarPlane s far distance maxDim).2 = true) ∧
      ((ensureFarPlane s far distance maxDim).2 = false →
        (ensureFarPlane s far distance maxDim).1 = far)) ∧
    (∀ (s : CameraSettings) (wide : Bool) (box : Box3) (far : ℚ) (st : FitState),
      fitCameraToModels s wide box far = some st → st.far = far) := by
  constructor
  · intro s far distance maxDim hd hm
    by_cases h : far < distance + maxDim
    · simp only [ensureFarPlane, if_pos h]
      refine ⟨le_trans ?_ (le_max_left _ _), fun _ => True.intro, fun hfalse => by simp at hfalse⟩
      linarith
    · simp only [ensureFarPlane, if_neg h]
      exact ⟨not_lt.mp h, fun hlt => absurd hlt h, fun _ => True.intro⟩
  · intro s wide box far st h
    unfold fitCameraToModels at h
    split_ifs at h
    rw [← Option.some_inj.mp h]

/-- Witness for `farPlane_invariant_fitAllModels` at a concrete input:
far plane 60 is too small for distance 100 and maxDim 50, so it is raised
to at least 150. -/
theorem farPlane_invariant_fitAllModels_witness :
    (100 : ℚ) + 50 ≤ (ensureFarPlane defaultCameraSettings 60 100 50).1 :=
  (farPlane_invariant_fitAllModels.1 defaultCameraSettings 60 100 50
    (by norm_num) (by norm_num)).1

/-- Claim C3 (confirmed): a close fit on the combined box `[0,100]^3` with
default settings yields `maxDim = 100`, `modelScale = 1`,
`baseDistance = max(100 * 5, 200) = 500`, camera position
`(50,50,50) + (450, 1000, 400) = (500, 1050, 450)`, aimed at the center
`(50,50,50)`. -/
theorem closeFit_default_cube100 :
    modelScale defaultCameraSettings 100 = 1 ∧
    baseDistance defaultCameraSettings false 100 = 500 ∧
    fitCameraToModels defaultCameraSettings false ⟨⟨0, 0, 0⟩, ⟨100, 100, 100⟩⟩ 50000 =
      some ⟨⟨500, 1050, 450⟩, ⟨50, 50, 50⟩, 50000, 500, 100⟩ := by
  refine ⟨?_, ?_, ?_⟩ <;>
    simp only [fitCameraToModels, Box3.isEmpty, Box3.getCenter, Box3.getSize, finalDistance,
      baseDistance, modelScale, distanceMultiplier, cameraOffset, defaultCameraSettings] <;>
    norm_num [max_def]

/-- Claim C4 (confirmed): the sequential `if` checks of `fitCameraToModels`
produce override semantics.  The model scale is always exactly one of
1, 2, 3, 4; above the very-large threshold `finalDistance = baseDistance * 4`;
and between two thresholds only the last matched multiplier applies —
multipliers never compound. -/
theorem modelScale_override_semantics (s : CameraSettings) (wide : Bool) (x : ℚ) :
    (modelScale s x = 1 ∨ modelScale s x = 2 ∨ modelScale s x = 3 ∨ modelScale s x = 4) ∧
    (s.veryLargeModelThreshold < x →
      finalDistance s wide x = baseDistance s wide x * 4) ∧
    (s.largeModelThreshold < x → x ≤ s.veryLargeModelThreshold →
      finalDistance s wide x = baseDistance s wide x * 3) ∧
    (s.mediumModelThreshold < x → x ≤ s.largeModelThreshold → x ≤ s.veryLargeModelThreshold →
      finalDistance s wide x = baseDistance s wide x * 2) := by
  refine ⟨?_, ?_, ?_, ?_⟩
  · simp only [modelScale]
    split_ifs <;> norm_num
  · intro hvl
    simp only [finalDistance, modelScale]
    split_ifs <;> rfl
  · intro hl hvle
    simp only [finalDistance, modelScale]
    split_ifs <;> first | rfl | linarith
  · intro hm hle hvle
    simp only [finalDistance, modelScale]
    split_ifs <;> first | rfl | linarith

/-- Witness for `modelScale_override_semantics`: with default settings a
model of size 2000 exceeds the very-large threshold 1000, so the final
distance is exactly `baseDistance * 4`. -/
theorem modelScale_override_semantics_witness :
    finalDistance defaultCameraSettings false 2000 =
      baseDistance defaultCameraSettings false 2000 * 4 :=
  (modelScale_override_semantics defaultCameraSettings false 2000).2.1
    (by norm_num [defaultCameraSettings])

/-- Claim C5 (confirmed): whenever `fitCameraToModels` (close or far fit)
succeeds on a valid combined bounding box, the computed camera distance is
at least `minimumDistance` — including the degenerate single-point box with
`maxDim = 0`. -/
theorem fit_distance_ge_minimumDistance (s : CameraSettings) (wide : Bool) (box : Box3)
    (far : ℚ) (st : FitState) (hmin : 0 ≤ s.minimumDistance)
    (h : fitCameraToModels s wide box far = some st) :
    s.minimumDistance ≤ st.finalDistance := by
  unfold fitCameraToModels at h
  split_ifs at h
  rw [← Option.some_inj.mp h]
  exact minimumDistance_le_finalDistance s wide _ hmin

/-- Witness for `fit_distance_ge_minimumDistance`: the single-point box at
the origin (maxDim = 0) still yields a distance (200) at least the default
minimum distance. -/
theorem fit_distance_ge_minimumDistance_witness :
    defaultCameraSettings.minimumDistance ≤
      (FitState.mk ⟨180, 400, 160⟩ ⟨0, 0, 0⟩ 50000 200 0).finalDistance :=
  fit_distance_ge_minimumDistance defaultCameraSettings false ⟨⟨0, 0, 0⟩, ⟨0, 0, 0⟩⟩ 50000 _
    (by norm_num [defaultCameraSettings])
    (by
      simp only [fitCameraToModels, Box3.isEmpty, Box3.getCenter, Box3.getSize, finalDistance,
        baseDistance, modelScale, distanceMultiplier, cameraOffset, defaultCameraSettings]
      norm_num [max_def])

/-- Claim C10 (confirmed): for fixed settings (with a nonnegative distance
multiplier, as in the defaults) and a fixed fit mode, the final camera
distance is monotonically non-decreasing in `maxDim`. -/
theorem finalDistance_monotone (s : CameraSettings) (wide : Bool) (a b : ℚ)
    (hm : 0 ≤ distanceMultiplier s wide) (ha : 0 ≤ a) (hab : a ≤ b) :
    finalDistance s wide a ≤ finalDistance s wide b := by
  have hbase : baseDistance s wide a ≤ baseDistance s wide b :=
    max_le_max (mul_le_mul_of_nonneg_right hab hm) le_rfl
  have hb0 : 0 ≤ baseDistance s wide b :=
    le_trans (mul_nonneg (ha.trans hab) hm) (le_max_left _ _)
  exact mul_le_mul hbase (modelScale_mono s hab) (modelScale_nonneg s a) hb0

/-- Witness for `finalDistance_monotone` at the default settings,
`a = 0 ≤ b = 1000000`, in close-fit mode. -/
theorem finalDistance_monotone_witness :
    finalDistance defaultCameraSettings false 0 ≤ finalDistance defaultCameraSettings false 1000000 :=
  finalDistance_monotone defaultCameraSettings false 0 1000000
    (by norm_num [distanceMultiplier, defaultCameraSettings]) (by norm_num) (by norm_num)

/-! ## Model readiness monitor (`waitForModelReady`, main.ts lines 1654-1718)

The poll loop is modelled with idealized timing: the `k`-th invocation of
`checkReady` happens at elapsed time `checkInterval * k` (the first call is
immediate, each later one follows a `setTimeout(checkReady, checkInterval)`).
`geomAt k` abstracts whether the model's geometry is available at the `k`-th
poll (either a child with a non-empty position attribute or a non-empty
merged bounding box).  The promise only ever resolves — there is no reject
path in the source — so the result type has exactly the two resolution
modes: geometry found, or timeout with a logged warning. -/

/-- `const checkInterval = 50; // Check every 50ms`. -/
def checkInterval : ℕ := 50

/-- How the readiness promise resolved, together with the elapsed time (ms)
at resolution. -/
inductive WaitResult where
  | ready (elapsed : ℕ)
  | timedOut (elapsed : ℕ)
deriving DecidableEq

/-- The recursive `checkReady` closure of `waitForModelReady`: first test
`elapsedTime > maxWaitTime` (timeout, resolve with a warning), then test
geometry availability (resolve), otherwise re-arm `setTimeout` for the next
poll.  The source's local `elapsedTime = Date.now() - startTime` is written
inline here as `checkInterval * k`. -/
def checkReady (geomAt : ℕ → Bool) (maxWaitTime : ℕ) (k : ℕ) : WaitResult :=
  if maxWaitTime < checkInterval * k then .timedOut (checkInterval * k)
  else if geomAt k then .ready (checkInterval * k)
  else checkReady geomAt maxWaitTime (k + 1)
termination_by maxWaitTime / checkInterval + 1 - k
decreasing_by
  simp only [checkInterval, not_lt] at *
  omega

/-- `waitForModelReady(model, maxWaitTime = 5000)`: start polling at elapsed
time 0. -/
def waitForModelReady (geomAt : ℕ → Bool) (maxWaitTime : ℕ := 5000) : WaitResult :=
  checkReady geomAt maxWaitTime 0

lemma checkReady_spec (geomAt : ℕ → Bool) (M : ℕ) :
    ∀ k, checkInterval * k ≤ M + checkInterval →
      (∃ e, checkReady geomAt M k = .ready e ∧ e ≤ M) ∨
      (∃ e, checkReady geomAt M k = .timedOut e ∧ M < e ∧ e ≤ M + checkInterval) := by
  have H : ∀ n k, M + checkInterval - checkInterval * k ≤ n →
      checkInterval * k ≤ M + checkInterval →
      (∃ e, checkReady geomAt M k = .ready e ∧ e ≤ M) ∨
      (∃ e, checkReady geomAt M k = .timedOut e ∧ M < e ∧ e ≤ M + checkInterval) := by
    intro n
    induction n with
    | zero =>
      intro k hn hk
      have hlt : M < checkInterval * k := by
        simp only [checkInterval] at *; omega
      rw [checkReady.eq_def, if_pos hlt]
      exact Or.inr ⟨checkInterval * k, rfl, hlt, hk⟩
    | succ n ih =>
      intro k hn hk
      rw [checkReady.eq_def]
      by_cases hlt : M < checkInterval * k
      · rw [if_pos hlt]
        exact Or.inr ⟨checkInterval * k, rfl, hlt, hk⟩
      · rw [if_neg hlt]
        by_cases hg : geomAt k
        · rw [if_pos hg]
          exact Or.inl ⟨checkInterval * k, rfl, not_lt.mp hlt⟩
        · rw [if_neg hg]
          apply ih (k + 1) <;> simp only [checkInterval] at * <;> omega
  intro k hk
  exact H (M + checkInterval - checkInterval * k) k le_rfl hk

lemma checkReady_all_false (geomAt : ℕ → Bool) (M : ℕ) (hg : ∀ j, geomAt j = false) :
    ∀ k, k ≤ M / checkInterval + 1 →
      checkReady geomAt M k = .timedOut (checkInterval * (M / checkInterval + 1)) := by
  have H : ∀ n k, M / checkInterval + 1 - k ≤ n → k ≤ M / checkInterval + 1 →
      checkReady geomAt M k = .timedOut (checkInterval * (M / checkInterval + 1)) := by
    intro n
    induction n with
    | zero =>
      intro k hn hk
      have hkeq : k = M / checkInterval + 1 := by omega
      subst hkeq
      have hlt : M < checkInterval * (M / checkInterval + 1) := by
        simp only [checkInterval] at *; omega
      rw [checkReady.eq_def, if_pos hlt]
    | succ n ih =>
      intro k hn hk
      rcases Nat.lt_or_ge k (M / checkInterval + 1) with hlt | hge
      · have hnot : ¬ M < checkInterval * k := by
          simp only [checkInterval] at *; omega
        rw [checkReady.eq_def, if_neg hnot, hg k, if_neg (by simp)]
        exact ih (k + 1) (by omega) (by omega)
      · have hkeq : k = M / checkInterval + 1 := by omega
        subst hkeq
        have hlt : M < checkInterval * (M / checkInterval + 1) := by
          simp only [checkInterval] at *; omega
        rw [checkReady.eq_def, if_pos hlt]
  intro k hk
  exact H (M / checkInterval + 1 - k) k le_rfl hk

/-- Claim C6 (confirmed): the model-readiness wait always resolves (no reject
path) and is bounded: resolution happens at elapsed time at most
`maxWaitTime + checkInterval`.  If geometry is present at the first poll it
resolves immediately (`ready 0`, no timeout warning); if geometry never
becomes available it resolves via the timeout path at the first poll whose
elapsed time exceeds `maxWaitTime` (the elapsed-time check runs before each
geometry check). -/
theorem waitForModelReady_resolves (geomAt : ℕ → Bool) (maxWaitTime : ℕ) :
    ((∃ e, waitForModelReady geomAt maxWaitTime = .ready e ∧ e ≤ maxWaitTime) ∨
     (∃ e, waitForModelReady geomAt maxWaitTime = .timedOut e ∧
        maxWaitTime < e ∧ e ≤ maxWaitTime + checkInterval)) ∧
    (geomAt 0 = true → waitForModelReady geomAt maxWaitTime = .ready 0) ∧
    ((∀ j, geomAt j = false) → waitForModelReady geomAt maxWaitTime =
        .timedOut (checkInterval * (maxWaitTime / checkInterval + 1))) := by
  refine ⟨?_, ?_, ?_⟩
  · exact checkReady_spec geomAt maxWaitTime 0 (by simp)
  · intro h0
    unfold waitForModelReady
    rw [checkReady.eq_def, if_neg (by simp [checkInterval]), h0, if_pos rfl]
    simp
  · intro hall
    exact checkReady_all_false geomAt maxWaitTime hall 0 (Nat.zero_le _)

/-- Witness for `waitForModelReady_resolves`: a model whose geometry is
available at the very first poll resolves immediately at elapsed time 0 with
the default 5000 ms budget, and a model whose geometry never appears times
out at 5050 ms. -/
theorem waitForModelReady_resolves_witness :
    waitForModelReady (fun _ => true) 5000 = .ready 0 ∧
    waitForModelReady (fun _ => false) 5000 = .timedOut 5050 :=
  ⟨(waitForModelReady_resolves (fun _ => true) 5000).2.1 rfl,
   (waitForModelReady_resolves (fun _ => false) 5000).2.2 (fun _ => rfl)⟩

/-! ## Visibility registry (`toggleCategoryVisibility`, main.ts lines 700-775)

The `localStorage`-backed `hiddenCategories` JSON object is modelled as an
association list `List (String × Bool)`; `classifier.find({entities:
[category]})` is abstracted as a function from the category name to the
per-model lists of matched item ids (it is deterministic while the loaded
models do not change). -/

/-- Reading a key of the `hiddenCategories` JSON object. -/
def regGet : List (String × Bool) → String → Option Bool
  | [], _ => none
  | (k, v) :: rest, c => if k = c then some v else regGet rest c

/-- `delete hiddenCategories[category]` (main.ts line 741). -/
def regDel (r : List (String × Bool)) (c : String) : List (String × Bool) :=
  r.filter (fun p => p.1 ≠ c)

/-- `hiddenCategories[category] = true` (main.ts line 749): JSON object keys
are unique, so setting a key replaces any previous binding. -/
def regSet (r : List (String × Bool)) (c : String) (b : Bool) : List (String × Bool) :=
  (c, b) :: regDel r c

/-- `hiddenCategories[category] || false` — the hidden/shown state of a
category; an absent key means shown. -/
def hiddenStateOf (r : List (String × Bool)) (c : String) : Bool :=
  (regGet r c).getD false

/-- `totalItems`: the sum of the per-model classifier result set sizes
(main.ts lines 718-722). -/
def totalItemsOf (result : List (List ℕ)) : ℕ :=
  (result.map List.length).sum

/-- The observable effects of one `toggleCategoryVisibility` call: the
registry afterwards, the `hider.set(visible, result)` call if one was made,
the logged item count, whether the fallback path was taken, and the value
returned to the caller.  The source method is `private async
toggleCategoryVisibility(category: string)` with no `return expr`
statement, so its promise always resolves with `undefined`: `returned` is
therefore always `none`. -/
structure ToggleOutcome where
  registry : List (String × Bool)
  hiderSet : Option (Bool × List (List ℕ))
  loggedCount : ℕ
  usedFallback : Bool
  returned : Option ℕ
deriving DecidableEq

/-- `FragmentViewer.toggleCategoryVisibility` (main.ts lines 700-775).
`find` abstracts `classifier.find({ entities: [category] })`, giving the
matched item ids per loaded model.  When no items are found the method
defers to `toggleCategoryVisibilityFallback`, which never touches
`hiddenCategories` (modelled by `usedFallback := true` and an unchanged
registry). -/
def toggleCategoryVisibility (find : String → List (List ℕ)) (category : String)
    (registry : List (String × Bool)) : ToggleOutcome :=
  let result := find category
  let totalItems := totalItemsOf result
  if 0 < totalItems then
    let categoryCurrentlyHidden := hiddenStateOf registry category
    if categoryCurrentlyHidden then
      { registry := regDel registry category
        hiderSet := some (true, result)
        loggedCount := totalItems
        usedFallback := false
        returned := none }
    else
      { registry := regSet registry category true
        hiderSet := some (false, result)
        loggedCount := totalItems
        usedFallback := false
        returned := none }
  else
    { registry := registry
      hiderSet := none
      loggedCount := totalItems
      usedFallback := true
      returned := none }

lemma regGet_regDel_self (r : List (String × Bool)) (c : String) :
    regGet (regDel r c) c = none := by
  induction r with
  | nil => rfl
  | cons hd tl ih =>
    by_cases h : hd.1 = c
    · simpa [regDel, h] using ih
    · simpa [regDel, regGet, h] using ih

lemma regGet_regDel_ne (r : List (String × Bool)) (c c' : String) (h : c' ≠ c) :
    regGet (regDel r c) c' = regGet r c' := by
  induction r with
  | nil => rfl
  | cons hd tl ih =>
    by_cases hc : hd.1 = c
    · rw [show regDel (hd :: tl) c = regDel tl c by simp [regDel, hc]]
      rw [ih, show regGet (hd :: tl) c' = regGet tl c' by
        simp [regGet, show hd.1 ≠ c' from hc ▸ fun he => h he.symm]]
    · rw [show regDel (hd :: tl) c = hd :: regDel tl c by simp [regDel, hc]]
      by_cases hc' : hd.1 = c'
      · simp [regGet, hc']
      · simp only [regGet, if_neg hc', ih]

lemma regGet_regSet_ne (r : List (String × Bool)) (c c' : String) (b : Bool)
    (h : c' ≠ c) : regGet (regSet r c b) c' = regGet r c' := by
  have hcc : ¬ c = c' := fun he => h he.symm
  unfold regSet
  rw [show regGet ((c, b) :: regDel r c) c' = regGet (regDel r c) c' by
    simp [regGet, hcc]]
  exact regGet_regDel_ne r c c' h

lemma hiddenStateOf_regSet_self (r : List (String × Bool)) (c : String) (b : Bool) :
    hiddenStateOf (regSet r c b) c = b := by
  simp [hiddenStateOf, regSet, regGet]

lemma hiddenStateOf_regDel_self (r : List (String × Bool)) (c : String) :
    hiddenStateOf (regDel r c) c = false := by
  simp [hiddenStateOf, regGet_regDel_self]

lemma toggle_registry_hidden (find : String → List (List ℕ)) (category : String)
    (registry : List (String × Bool)) (hpos : 0 < totalItemsOf (find category))
    (hhid : hiddenStateOf registry category = true) :
    (toggleCategoryVisibility find category registry).registry = regDel registry category := by
  simp only [toggleCategoryVisibility]
  rw [if_pos hpos, if_pos hhid]

lemma toggle_registry_shown (find : String → List (List ℕ)) (category : String)
    (registry : List (String × Bool)) (hpos : 0 < totalItemsOf (find category))
    (hshown : hiddenStateOf registry category = false) :
    (toggleCategoryVisibility find category registry).registry
      = regSet registry category true := by
  simp only [toggleCategoryVisibility]
  rw [if_pos hpos, hshown, if_neg (by simp)]

lemma toggle_loggedCount (find : String → List (List ℕ)) (category : String)
    (registry : List (String × Bool)) :
    (toggleCategoryVisibility find category registry).loggedCount
      = totalItemsOf (find category) := by
  simp only [toggleCategoryVisibility]
  split_ifs <;> rfl

lemma toggle_returned (find : String → List (List ℕ)) (category : String)
    (registry : List (String × Bool)) :
    (toggleCategoryVisibility find category registry).returned = none := by
  simp only [toggleCategoryVisibility]
  split_ifs <;> rfl

/-- Claim C7 (confirmed): toggling the same category twice in a row (with the
same classifier result and no intervening bulk operation) restores the
hidden/shown state of every category — in particular of the toggled one —
to its original value, whatever the registry held before. -/
theorem toggleCategory_involution (find : String → List (List ℕ)) (category : String)
    (registry : List (String × Bool)) (c : String) :
    hiddenStateOf
      (toggleCategoryVisibility find category
        (toggleCategoryVisibility find category registry).registry).registry c
      = hiddenStateOf registry c := by
  by_cases hpos : 0 < totalItemsOf (find category)
  · by_cases hhid : hiddenStateOf registry category = true
    · rw [toggle_registry_hidden find category registry hpos hhid,
          toggle_registry_shown find category _ hpos (hiddenStateOf_regDel_self _ _)]
      by_cases hc : c = category
      · subst hc
        rw [hiddenStateOf_regSet_self, hhid]
      · unfold hiddenStateOf
        rw [regGet_regSet_ne _ _ _ _ hc, regGet_regDel_ne _ _ _ hc]
    · have hshown : hiddenStateOf registry category = false := by
        cases h : hiddenStateOf registry category
        · rfl
        · exact absurd h hhid
      rw [toggle_registry_shown find category registry hpos hshown,
          toggle_registry_hidden find category _ hpos (hiddenStateOf_regSet_self _ _ _)]
      by_cases hc : c = category
      · subst hc
        rw [hiddenStateOf_regDel_self, hshown]
      · unfold hiddenStateOf
        rw [regGet_regDel_ne _ _ _ hc, regGet_regSet_ne _ _ _ _ hc]
  · simp only [toggleCategoryVisibility, if_neg hpos]

/-- Claim C2, counterexample: the toggle operation does not return the count
of affected elements.  For a model with 12 wall elements the count 12 is
computed and logged, but the TypeScript method is `async ... : Promise<void>`
with no return statement — the caller receives `undefined`, not 12. -/
theorem toggleCategory_returns_no_count :
    (toggleCategoryVisibility
        (fun c => if c = "IFCWALL" then [[0, 1, 2, 3, 4, 5, 6, 7, 8, 9, 10, 11]] else [])
        "IFCWALL" []).loggedCount = 12 ∧
    (toggleCategoryVisibility
        (fun c => if c = "IFCWALL" then [[0, 1, 2, 3, 4, 5, 6, 7, 8, 9, 10, 11]] else [])
        "IFCWALL" []).returned = none := by
  constructor <;> rfl

/-- Claim C2 (amended): for a category with at least one matching element
and an initially shown state, the toggle operation computes and logs the
count of affected elements, and that count is equal on the first and second
toggle; the registry entry becomes hidden=true after the first toggle and
hidden=false (the entry is deleted) after the second.  The operation's
promise resolves with no value both times — the count is logged, not
returned. -/
theorem toggleCategory_count_stable (find : String → List (List ℕ)) (category : String)
    (registry : List (String × Bool))
    (hpos : 0 < totalItemsOf (find category))
    (hshown : hiddenStateOf registry category = false) :
    (toggleCategoryVisibility find category registry).loggedCount
        = totalItemsOf (find category) ∧
    (toggleCategoryVisibility find category
        (toggleCategoryVisibility find category registry).registry).loggedCount
        = (toggleCategoryVisibility find category registry).loggedCount ∧
    hiddenStateOf (toggleCategoryVisibility find category registry).registry category
        = true ∧
    hiddenStateOf (toggleCategoryVisibility find category
        (toggleCategoryVisibility find category registry).registry).registry category
        = false ∧
    (toggleCategoryVisibility find category registry).returned = none ∧
    (toggleCategoryVisibility find category
        (toggleCategoryVisibility find category registry).registry).returned = none := by
  have h1 : (toggleCategoryVisibility find category registry).registry
      = regSet registry category true := toggle_registry_shown find category registry hpos hshown
  have h2 : hiddenStateOf (regSet registry category true) category = true :=
    hiddenStateOf_regSet_self _ _ _
  refine ⟨toggle_loggedCount _ _ _, ?_, ?_, ?_, toggle_returned _ _ _, toggle_returned _ _ _⟩
  · rw [toggle_loggedCount, toggle_loggedCount]
  · rw [h1, h2]
  · rw [h1, toggle_registry_hidden find category _ hpos h2, hiddenStateOf_regDel_self]

/-- Witness for `toggleCategory_count_stable`: the 12-wall-element scenario
of the spec, starting from an empty registry. -/
theorem toggleCategory_count_stable_witness :
    (toggleCategoryVisibility
        (fun c => if c = "IFCWALL" then [[0, 1, 2, 3, 4, 5, 6, 7, 8, 9, 10, 11]] else [])
        "IFCWALL" []).loggedCount
      = totalItemsOf ((fun c : String =>
          if c = "IFCWALL" then [[0, 1, 2, 3, 4, 5, 6, 7, 8, 9, 10, 11]] else []) "IFCWALL") :=
  (toggleCategory_count_stable
    (fun c => if c = "IFCWALL" then [[0, 1, 2, 3, 4, 5, 6, 7, 8, 9, 10, 11]] else [])
    "IFCWALL" [] (by norm_num [totalItemsOf]) rfl).1

/-! ## Fallback chain (`toggleCategoryVisibilityFallback`, main.ts lines 845-880)

Each loaded model is abstracted by its `getItemsOfCategories` answer
(`itemsOf`, with `items[variation] || []` already applied) and its
`isVisible` answer per item id.  The source loops over the models in load
order and, inside each model, over the four name variations; on the first
variation with a non-empty item list it flips that model's items
(`setVisible(itemIds, !isVisible(itemIds[0]))`) and `return`s from the whole
function. -/

/-- JavaScript `String.prototype.toLowerCase`, character by character. -/
def toLowerCase (s : String) : String :=
  ⟨s.data.map Char.toLower⟩

/-- Whether the character list starts with the given pattern. -/
def charsStartWith : List Char → List Char → Bool
  | _, [] => true
  | [], _ :: _ => false
  | c :: cs, p :: ps => c = p && charsStartWith cs ps

/-- Replace the first occurrence of `pat` by the empty string in a character
list (the JavaScript semantics of `s.replace(pat, '')` with a string
pattern: only the first occurrence is replaced). -/
def replaceFirstChars : List Char → List Char → List Char
  | [], _ => []
  | c :: cs, pat =>
    if charsStartWith (c :: cs) pat then (c :: cs).drop pat.length
    else c :: replaceFirstChars cs pat

/-- JavaScript `category.replace(pat, '')`. -/
def replaceFirst (s pat : String) : String :=
  ⟨replaceFirstChars s.data pat.data⟩

/-- The `variations` array of `toggleCategoryVisibilityFallback` (main.ts
lines 849-854): `[category, category.toLowerCase(),
category.replace('IFC', ''), category.replace('IFC', '').toLowerCase()]`. -/
def variations (category : String) : List String :=
  [category, toLowerCase category, replaceFirst category "IFC",
   toLowerCase (replaceFirst category "IFC")]

/-- A loaded model as seen by the fallback path: `getItemsOfCategories`
(already reduced to `items[variation] || []`) and per-item `isVisible`. -/
structure FallbackModel where
  itemsOf : String → List ℕ
  isVis : ℕ → Bool

/-- The inner loop `for (const variation of variations)`: the first variation
whose item list is non-empty wins. -/
def tryVariations (m : FallbackModel) : List String → Option (String × List ℕ)
  | [] => none
  | v :: rest =>
    let itemIds := m.itemsOf v
    if 0 < itemIds.length then some (v, itemIds) else tryVariations m rest

/-- What the fallback does inside one model: the winning variation, its item
ids, and the visibility value passed to `setVisible` —
`!(await model.isVisible(itemIds[0]))`. -/
def fallbackAction (m : FallbackModel) (category : String) :
    Option (String × List ℕ × Bool) :=
  match tryVariations m (variations category) with
  | none => none
  | some (v, itemIds) => some (v, itemIds, !(m.isVis (itemIds.headD 0)))

/-- `FragmentViewer.toggleCategoryVisibilityFallback` (main.ts lines 845-880):
models are visited in load order; on the first model where some variation
yields items, that model's items are flipped and the function `return`s —
no later model is touched.  The result records the acting model's index, the
winning variation, the flipped item ids and the `setVisible` value; `none`
means no variant yielded elements in any model (no state change). -/
def toggleCategoryVisibilityFallback :
    List FallbackModel → String → Option (ℕ × String × List ℕ × Bool)
  | [], _ => none
  | m :: rest, category =>
    match fallbackAction m category with
    | some (v, itemIds, visible) => some (0, v, itemIds, visible)
    | none =>
      (toggleCategoryVisibilityFallback rest category).map
        (fun r => (r.1 + 1, r.2))

lemma tryVariations_eq_none_iff (m : FallbackModel) (l : List String) :
    tryVariations m l = none ↔ ∀ v ∈ l, m.itemsOf v = [] := by
  induction l with
  | nil => simp [tryVariations]
  | cons v rest ih =>
    by_cases h : 0 < (m.itemsOf v).length
    · simp only [tryVariations, if_pos h]
      constructor
      · intro hfalse
        exact absurd hfalse (by simp)
      · intro hall
        have := hall v (List.mem_cons_self v rest)
        rw [this] at h
        exact absurd h (by simp)
    · simp only [tryVariations, if_neg h, ih]
      have hv : m.itemsOf v = [] := List.length_eq_zero.mp (by omega)
      constructor
      · intro hall w hw
        rcases List.mem_cons.mp hw with hweq | hwrest
        · rw [hweq]; exact hv
        · exact hall w hwrest
      · intro hall w hw
        exact hall w (List.mem_cons_of_mem v hw)

lemma tryVariations_eq_some (m : FallbackModel) (l : List String) (v : String)
    (itemIds : List ℕ) (h : tryVariations m l = some (v, itemIds)) :
    itemIds = m.itemsOf v ∧ itemIds ≠ [] ∧
    ∃ pre post, l = pre ++ v :: post ∧ ∀ w ∈ pre, m.itemsOf w = [] := by
  induction l with
  | nil => exact absurd h (by simp [tryVariations])
  | cons u rest ih =>
    by_cases hu : 0 < (m.itemsOf u).length
    · rw [tryVariations, if_pos hu, Option.some_inj] at h
      simp only [Prod.mk.injEq] at h
      obtain ⟨rfl, rfl⟩ := h
      refine ⟨rfl, ?_, [], rest, rfl, by simp⟩
      intro hnil
      rw [hnil] at hu
      exact absurd hu (by simp)
    · rw [tryVariations, if_neg hu] at h
      obtain ⟨hids, hne, pre, post, hsplit, hpre⟩ := ih h
      refine ⟨hids, hne, u :: pre, post, by rw [hsplit]; rfl, ?_⟩
      intro w hw
      rcases List.mem_cons.mp hw with hweq | hwpre
      · rw [hweq]
        exact List.length_eq_zero.mp (by omega)
      · exact hpre w hwpre

lemma fallbackAction_eq_none_iff (m : FallbackModel) (category : String) :
    fallbackAction m category = none ↔ ∀ v ∈ variations category, m.itemsOf v = [] := by
  rw [← tryVariations_eq_none_iff]
  unfold fallbackAction
  cases h : tryVariations m (variations category) with
  | none => simp
  | some p => cases p with | mk v ids => simp

/-- Claim C8 (amended): when the primary resolution finds nothing, the
fallback visits the loaded models in order.  Within a model the variation
chain is `[category, lowercased, 'IFC'-stripped, both]` — the original name
is retried first — and the first variation with a non-empty item set wins.
The fallback acts on, and only on, the first model with a winning variation
(all earlier models had no matching variant), flipping that model's items
against the visibility of their first item; it returns having touched no
other model.  `none` is returned exactly when no variation matches in any
model. -/
theorem fallback_first_model_first_variation (models : List FallbackModel)
    (category : String) :
    (toggleCategoryVisibilityFallback models category = none ↔
      ∀ m ∈ models, ∀ v ∈ variations category, m.itemsOf v = []) ∧
    (∀ i v itemIds visible,
      toggleCategoryVisibilityFallback models category = some (i, v, itemIds, visible) →
      ∃ mi, models.get? i = some mi ∧
        (∀ j mj, j < i → models.get? j = some mj →
          ∀ w ∈ variations category, mj.itemsOf w = []) ∧
        itemIds = mi.itemsOf v ∧ itemIds ≠ [] ∧
        visible = !(mi.isVis (itemIds.headD 0)) ∧
        ∃ pre post, variations category = pre ++ v :: post ∧
          ∀ w ∈ pre, mi.itemsOf w = []) := by
  induction models with
  | nil =>
    constructor
    · simp [toggleCategoryVisibilityFallback]
    · intro i v itemIds visible h
      exact absurd h (by simp [toggleCategoryVisibilityFallback])
  | cons m rest ih =>
    constructor
    · rw [toggleCategoryVisibilityFallback]
      cases hact : fallbackAction m category with
      | some p =>
        simp only [hact]
        constructor
        · intro hfalse
          exact absurd hfalse (by simp)
        · intro hall
          rw [(fallbackAction_eq_none_iff m category).mpr
            (fun v hv => hall m (List.mem_cons_self m rest) v hv)] at hact
          exact absurd hact (by simp)
      | none =>
        simp only [hact, Option.map_eq_none']
        rw [ih.1]
        constructor
        · intro hall w hw v hv
          rcases List.mem_cons.mp hw with hweq | hwrest
          · rw [hweq]
            exact (fallbackAction_eq_none_iff m category).mp hact v hv
          · exact hall w hwrest v hv
        · intro hall w hw v hv
          exact hall w (List.mem_cons_of_mem m hw) v hv
    · intro i v itemIds visible h
      rw [toggleCategoryVisibilityFallback] at h
      cases hact : fallbackAction m category with
      | some p =>
        obtain ⟨w, ids, vis⟩ := p
        rw [hact] at h
        simp only [Option.some_inj, Prod.mk.injEq] at h
        obtain ⟨rfl, rfl, rfl, rfl⟩ := h
        unfold fallbackAction at hact
        cases htry : tryVariations m (variations category) with
        | none => rw [htry] at hact; exact absurd hact (by simp)
        | some q =>
          obtain ⟨v', ids'⟩ := q
          rw [htry] at hact
          simp only [Option.some_inj, Prod.mk.injEq] at hact
          obtain ⟨rfl, rfl, rfl⟩ := hact
          obtain ⟨hids, hne, pre, post, hsplit, hpre⟩ :=
            tryVariations_eq_some m (variations category) _ _ htry
          exact ⟨m, rfl, fun j mj hj _ => absurd hj (Nat.not_lt_zero j),
            hids, hne, rfl, pre, post, hsplit, hpre⟩
      | none =>
        rw [hact] at h
        simp only [Option.map_eq_some'] at h
        obtain ⟨⟨i', v', itemIds', visible'⟩, hr, heq⟩ := h
        simp only [Prod.mk.injEq] at heq
        obtain ⟨rfl, rfl, rfl, rfl⟩ := heq
        obtain ⟨mi, hget, hearlier, hids, hne, hvis, pre, post, hsplit, hpre⟩ :=
          ih.2 i' v' itemIds' visible' hr
        refine ⟨mi, hget, ?_, hids, hne, hvis, pre, post, hsplit, hpre⟩
        intro j mj hj hgj w hw
        cases j with
        | zero =>
          have hmj : mj = m := by
            rw [show ((m :: rest).get? 0) = some m from rfl, Option.some_inj] at hgj
            exact hgj.symm
          rw [hmj]
          exact (fallbackAction_eq_none_iff m category).mp hact w hw
        | succ j' =>
          have hj' : j' < i' := by omega
          exact hearlier j' mj hj' hgj w hw

/-- First model in the fallback counterexample: it has elements only under
the fully lowercased variation "wall". -/
def wallModelA : FallbackModel where
  itemsOf := fun c => if c = "wall" then [1, 2] else []
  isVis := fun _ => true

/-- Second model in the fallback counterexample: it also has elements under
"wall", but the fallback never reaches it. -/
def wallModelB : FallbackModel where
  itemsOf := fun c => if c = "wall" then [3, 4] else []
  isVis := fun _ => true

/-- A model that answers the original category name (and the lowercased
variant) in the fallback path. -/
def originalNameModel : FallbackModel where
  itemsOf := fun c => if c = "IFCWALL" then [9] else if c = "ifcwall" then [7] else []
  isVis := fun _ => true

/-- Claim C8, counterexample: (a) with two loaded models that both match the
variation "wall", the fallback flips only the first model's elements
(result index 0) and returns — the flip does not apply across all loaded
models, although the second model's "wall" item set `[3, 4]` is non-empty;
(b) the variation chain retries the original name first: a model whose
`getItemsOfCategories` answers `[9]` for "IFCWALL" is toggled under the
original name even though the case-lowered variant "ifcwall" also has a
non-empty item set `[7]`, so the first of the three transformed variants is
not what wins. -/
theorem fallback_only_first_model_toggled :
    toggleCategoryVisibilityFallback [wallModelA, wallModelB] "IFCWALL"
      = some (0, "wall", [1, 2], false) ∧
    wallModelB.itemsOf "wall" = [3, 4] ∧
    toggleCategoryVisibilityFallback [originalNameModel] "IFCWALL"
      = some (0, "IFCWALL", [9], false) ∧
    originalNameModel.itemsOf "ifcwall" = [7] := by
  refine ⟨?_, ?_, ?_, ?_⟩ <;> decide

/-- Witness for `fallback_first_model_first_variation` at the two-model
counterexample input: the acting model is the first one and the flipped
item ids are its "wall" items. -/
theorem fallback_first_model_first_variation_witness :
    ∃ mi, [wallModelA, wallModelB].get? 0 = some mi ∧
      ([1, 2] : List ℕ) = mi.itemsOf "wall" := by
  obtain ⟨mi, hget, _, hids, _⟩ :=
    (fallback_first_model_first_variation [wallModelA, wallModelB] "IFCWALL").2
      0 "wall" [1, 2] false (by decide)
  exact ⟨mi, hget, hids⟩

/-! ## Picking (`setupPicking`, main.ts lines 1070-1119)

The click handler returns early when the fragments engine is missing or no
model is loaded.  Otherwise it raycasts each loaded model in load order; a
model without the `raycast` capability is skipped (`continue`), a raycast
that throws is caught and skipped, and a result without a defined `localId`
falls through.  The first model whose result carries a `localId` gets its
properties displayed and the handler returns; if the loop finishes with no
hit, the properties panel is reset to the empty-selection placeholder. -/

/-- What one loaded model's raycast contributes to a pick. -/
inductive RayOutcome where
  | noCapability
  | threw
  | noHit
  | hitNoId
  | hit (localId : ℕ)
deriving DecidableEq

/-- The `localId` the handler extracts from a raycast outcome: only a result
object with a defined `localId` counts (`result && result.localId !==
undefined`). -/
def RayOutcome.selects : RayOutcome → Option ℕ
  | .hit localId => some localId
  | _ => none

/-- The state of the properties panel after the click handler runs. -/
inductive PropertiesDisplay where
  | placeholder
  | componentProperties (modelIdx localId : ℕ)
deriving DecidableEq

/-- The first model (by load order) whose raycast yields a defined
`localId`, together with that id. -/
def firstHit : List RayOutcome → Option (ℕ × ℕ)
  | [] => none
  | o :: rest =>
    match o.selects with
    | some localId => some (0, localId)
    | none => (firstHit rest).map (fun r => (r.1 + 1, r.2))

/-- The click handler of `setupPicking` as a function on the properties
panel: `outcomes` lists each loaded model's raycast outcome in load order,
`prev` is the panel content before the click. -/
def pickHandler (hasFragments : Bool) (outcomes : List RayOutcome)
    (prev : PropertiesDisplay) : PropertiesDisplay :=
  if !hasFragments || outcomes.isEmpty then prev
  else
    match firstHit outcomes with
    | some (i, localId) => .componentProperties i localId
    | none => .placeholder

lemma firstHit_eq_none (outcomes : List RayOutcome)
    (h : ∀ o ∈ outcomes, o.selects = none) : firstHit outcomes = none := by
  induction outcomes with
  | nil => rfl
  | cons o rest ih =>
    rw [firstHit, h o (List.mem_cons_self o rest)]
    rw [ih (fun p hp => h p (List.mem_cons_of_mem o hp))]
    rfl

/-- Claim C9, counterexample: the reset guarantee does not cover every pick
at which no loaded model reports a hit.  After all models are removed
(`clearAllFragments` and `removeModel` empty `loadedModels` without ever
resetting the properties panel), a click with zero loaded models — at which
trivially no loaded model reports a hit — takes the handler's early return
and leaves the stale previous component on display instead of resetting to
the placeholder. -/
theorem pick_zero_models_keeps_stale_display :
    pickHandler true [] (PropertiesDisplay.componentProperties 3 7)
      = PropertiesDisplay.componentProperties 3 7 ∧
    PropertiesDisplay.componentProperties 3 7 ≠ PropertiesDisplay.placeholder :=
  ⟨rfl, by decide⟩

/-- Claim C9 (amended): for a pick dispatched with the fragments engine
present and at least one loaded model, if no model's raycast yields a hit
with a defined `localId` (including when every raycast throws, misses, or
the capability is absent), the properties panel is reset to the
empty-selection placeholder — whatever it displayed before.  When no model
is loaded, or the fragments engine is absent, the handler returns early and
leaves the previous panel content untouched, so a stale result can remain
on display after all models are removed. -/
theorem pick_no_hit_resets_display (outcomes : List RayOutcome)
    (prev : PropertiesDisplay) :
    (outcomes ≠ [] → (∀ o ∈ outcomes, o.selects = none) →
      pickHandler true outcomes prev = .placeholder) ∧
    pickHandler true [] prev = prev ∧
    pickHandler false outcomes prev = prev := by
  refine ⟨?_, rfl, ?_⟩
  · intro hne hnohit
    have hie : outcomes.isEmpty = false := by
      cases outcomes with
      | nil => exact absurd rfl hne
      | cons o rest => rfl
    unfold pickHandler
    rw [hie, firstHit_eq_none outcomes hnohit]
    rfl
  · unfold pickHandler
    rfl

/-- Witness for `pick_no_hit_resets_display`: two loaded models, one whose
raycast throws and one without the capability, with a previous component
shown: the panel is reset to the placeholder. -/
theorem pick_no_hit_resets_display_witness :
    pickHandler true [RayOutcome.threw, RayOutcome.noCapability]
      (PropertiesDisplay.componentProperties 3 7) = .placeholder :=
  (pick_no_hit_resets_display [RayOutcome.threw, RayOutcome.noCapability]
    (PropertiesDisplay.componentProperties 3 7)).1 (by decide) (by decide)

end XSBH

